import Mathlib

/-! Shallow embedding of the gpt-term interaction engine
    (src/cmd/gpt-term/main.go, the storage package and the claude client
    package). Go strings are modelled as lists of characters, Go slices as
    Lean lists, Go ints as Lean Int or Nat where the source keeps the value
    non-negative. Lipgloss style renderers insert no newline characters and
    only recolor characters, so they are modelled as the identity on text. -/

/-- Interaction modes (main.go, type Mode). -/
inductive Mode where
  | ModeNormal
  | ModeEditing
  | ModeHistory
  | ModeCommandSelect
  | ModeHelp
deriving DecidableEq

/-- storage.Message: role, content and timestamp of one chat message. -/
structure Message where
  role : String
  content : List Char
  timestamp : Nat
deriving DecidableEq

/-- storage.Conversation: id, message list, creation time, derived summary. -/
structure Conversation where
  id : String
  messages : List Message
  createdAt : Nat
  summary : List Char
deriving DecidableEq

/-- claude.Message: role and content sent to the completion API. -/
structure ClaudeMessage where
  role : String
  content : List Char
deriving DecidableEq

/-- The bubbletea viewport as the engine uses it: a vertical offset into a
    buffer of rendered lines, plus the viewport dimensions. -/
structure Viewport where
  yOffset : Int
  height : Int
  width : Int
  lines : List (List Char)
deriving DecidableEq

/-- The engine state (main.go, type model). The text input is modelled by its
    value; spinner and readiness flags carry no engine logic and are omitted. -/
structure Model where
  textInput : List Char
  viewport : Viewport
  err : Option String
  conversation : Conversation
  mode : Mode
  messages : List Message
  cursorIndex : Nat
  conversations : List Conversation
  selectedConv : Nat
  isLoading : Bool
  height : Int
  width : Int
  commands : List (List Char)
  selectedCommand : Nat
deriving DecidableEq

/-- Effects handed back to the bubbletea runtime by an Update step: a
    completion request, a shell execution, an external process (clipboard),
    or an external editor invocation. -/
inductive Eff where
  | completionRequest (msgs : List ClaudeMessage)
  | execShell (cmd : List Char)
  | execProcess (argv : List String) (stdin : List Char)
  | launchEditor (content : List Char) (index : Nat)
deriving DecidableEq

/-- Result of one Update step: the new model, the optional effect returned to
    the runtime, and the list of conversation snapshots passed to
    storage.SaveConversation during the step, in order. -/
structure StepResult where
  model : Model
  eff : Option Eff
  saved : List Conversation
deriving DecidableEq

/-- apiResponseMsg (main.go): completion result event. -/
structure ApiResponseMsg where
  response : List Char
  err : Option String
deriving DecidableEq

/-- editMessageMsg (main.go): editor-completion event. -/
structure EditMessageMsg where
  index : Nat
  edited : List Char
  err : Option String
deriving DecidableEq

/-- commandOutputMsg (main.go): shell-execution completion event. -/
structure CommandOutputMsg where
  output : List Char
  err : Option String
deriving DecidableEq

/-- The system prompt constant from main.go. -/
def systemPrompt : String := "You are a bash terminal helper AI. Unless the user asks otherwise, you will specify all solutions in bash commands ideally one liners if its simple. Before displaying the bash command code, you must surround it with <command></command> tags. Each <command> block must contain exactly one command - if you need to show multiple commands, use multiple <command> blocks. Do not insert "

/-- The help text constant from main.go. -/
def helpMessage : String := "GPT Terminal Help:\n- Ctrl+J/K: Enter edit mode and navigate through messages\n- Enter: Edit selected user message\n- X: Execute command from selected assistant message\n- Alt+X: Execute command from last assistant message\n- Ctrl+R: Browse conversation history\n- Ctrl+L: Load latest conversation\n- Ctrl+N: Create new chat\n- Ctrl+C: Quit\n- Ctrl+H: Show this help\n\nCommands in responses are highlighted and can be executed. If multiple commands are present, you\x27ll be prompted to choose one."

/-- Go strings.Split(s, newline): split a text into its lines. -/
def splitLines : List Char → List (List Char)
  | [] => [[]]
  | c :: rest =>
    if c = '\n' then [] :: splitLines rest
    else
      match splitLines rest with
      | [] => [[c]]
      | l :: ls => (c :: l) :: ls

/-- Go unicode.IsSpace, as used by strings.TrimSpace: the Unicode
    white-space code points. -/
def goIsSpace (c : Char) : Bool :=
  c.toNat = 9 || c.toNat = 10 || c.toNat = 11 || c.toNat = 12 || c.toNat = 13 ||
  c.toNat = 32 || c.toNat = 0x85 || c.toNat = 0xA0 || c.toNat = 0x1680 ||
  (0x2000 ≤ c.toNat && c.toNat ≤ 0x200A) || c.toNat = 0x2028 || c.toNat = 0x2029 ||
  c.toNat = 0x202F || c.toNat = 0x205F || c.toNat = 0x3000

/-- Go strings.TrimSpace: drop leading and trailing white space. -/
def trimChars (t : List Char) : List Char :=
  ((t.dropWhile goIsSpace).reverse.dropWhile goIsSpace).reverse

/-- Split a text at the first occurrence of a (non-empty) pattern: returns
    the part before the occurrence and the part after it, or none when the
    pattern does not occur. This is the scanning primitive underlying Go
    regexp matches of literal-delimited non-greedy patterns. -/
def splitFirst (pat : List Char) : List Char → Option (List Char × List Char)
  | [] => none
  | c :: cs =>
    if pat.isPrefixOf (c :: cs) then some ([], (c :: cs).drop pat.length)
    else
      match splitFirst pat cs with
      | none => none
      | some (pre, post) => some (c :: pre, post)

/-- Go strings.Contains for a non-empty substring. -/
def containsSub (hay pat : List Char) : Bool :=
  (splitFirst pat hay).isSome

/-- The opening command delimiter. -/
def openTag : List Char := ("<command>").data

/-- The closing command delimiter. -/
def closeTag : List Char := ("</command>").data

/-- The inner texts of the matches of the non-greedy pattern
    open-tag (.*?) close-tag, in document order, exactly as Go
    regexp.FindAllStringSubmatch produces them: repeatedly find the first
    opening tag, then the first closing tag after it, take the text between
    them, and continue after the closing tag. The fuel argument is a
    structural-recursion device; it strictly exceeds the text length at every
    call, so the zero case is never reached. -/
def extractRawAux : Nat → List Char → List (List Char)
  | 0, _ => []
  | fuel + 1, t =>
    match splitFirst openTag t with
    | none => []
    | some (_, afterOpen) =>
      match splitFirst closeTag afterOpen with
      | none => []
      | some (inner, afterClose) => inner :: extractRawAux fuel afterClose

/-- The raw (untrimmed) extracted command texts of a reply. -/
def extractRaw (t : List Char) : List (List Char) :=
  extractRawAux (t.length + 1) t

/-- handleCommandExecution's extraction step (main.go): the submatches of
    the command pattern with strings.TrimSpace applied to each. -/
def extractCommands (t : List Char) : List (List Char) :=
  (extractRaw t).map trimChars

/-- The code-fence delimiter used by formatContent. -/
def codeFence : List Char := ("```").data

/-- A single newline, as a pattern. -/
def newlinePat : List Char := ("\n").data

/-- formatContent's first pass (main.go): replace every match of the
    non-greedy pattern fence (.*?) newline (.*?) fence by newline, the code
    capture, newline (the code-block style renderer adds no newlines and is
    modelled as the identity). Fueled structural recursion as above. -/
def replaceCodeBlocksAux : Nat → List Char → List Char
  | 0, t => t
  | fuel + 1, t =>
    match splitFirst codeFence t with
    | none => t
    | some (pre, afterOpen) =>
      match splitFirst newlinePat afterOpen with
      | none => t
      | some (_, afterNl) =>
        match splitFirst codeFence afterNl with
        | none => t
        | some (code, afterClose) =>
          pre ++ newlinePat ++ code ++ newlinePat ++ replaceCodeBlocksAux fuel afterClose

/-- formatContent's first pass with sufficient fuel. -/
def replaceCodeBlocks (t : List Char) : List Char :=
  replaceCodeBlocksAux (t.length + 1) t

/-- formatContent's second pass (main.go): replace every command-tag match by
    its trimmed inner text (the command style renderer is the identity). -/
def replaceCommandsAux : Nat → List Char → List Char
  | 0, t => t
  | fuel + 1, t =>
    match splitFirst openTag t with
    | none => t
    | some (pre, afterOpen) =>
      match splitFirst closeTag afterOpen with
      | none => t
      | some (inner, afterClose) =>
        pre ++ trimChars inner ++ replaceCommandsAux fuel afterClose

/-- formatContent (main.go): code-block pass, then command pass. -/
def formatContent (content : List Char) : List Char :=
  replaceCommandsAux ((replaceCodeBlocks content).length + 1) (replaceCodeBlocks content)

/-- Decimal digit characters of a natural number (fueled). -/
def natDigitsAux : Nat → Nat → List Char
  | 0, _ => []
  | fuel + 1, n =>
    if n < 10 then [Char.ofNat (48 + n)]
    else natDigitsAux fuel (n / 10) ++ [Char.ofNat (48 + n % 10)]

/-- Decimal rendering of a natural number. -/
def formatNat (n : Nat) : List Char := natDigitsAux (n + 1) n

/-- Modelled from the spec: timestamps are sortable date-times rendered by
    Go time.Format, whose implementation is outside this repository. We
    render the timestamp value as its decimal digits: a newline-free,
    order-respecting rendering standing in for the formatted date text. -/
def formatTimestamp (t : Nat) : List Char := formatNat t

/-- Non-negative clamp on integers, mirroring the Go idiom
    if x is negative then 0 else x. -/
def max0 (x : Int) : Int := if x < 0 then 0 else x

/-- The largest valid scroll offset of the bubbles viewport:
    max(0, totalLines - viewportHeight).
    Modelled from the spec: scroll operations clamp the offset to
    [0, max(0, totalLines - viewportHeight)]. -/
def Viewport.scrollMaxOffset (vp : Viewport) : Int :=
  max0 ((vp.lines.length : Int) - vp.height)

/-- Clamp an offset into [0, maxOff]. -/
def clampOffset (o maxOff : Int) : Int :=
  if o < 0 then 0 else if maxOff < o then maxOff else o

/-- Modelled from the spec: setContent replaces the rendered line buffer. -/
def Viewport.setContent (vp : Viewport) (content : List Char) : Viewport :=
  { vp with lines := splitLines content }

/-- Modelled from the spec: scrollBy(-n) clamps the resulting offset to
    [0, max(0, totalLines - viewportHeight)]. -/
def Viewport.lineUp (vp : Viewport) (n : Nat) : Viewport :=
  { vp with yOffset := clampOffset (vp.yOffset - n) vp.scrollMaxOffset }

/-- Modelled from the spec: scrollBy(+n) clamps the resulting offset to
    [0, max(0, totalLines - viewportHeight)]. -/
def Viewport.lineDown (vp : Viewport) (n : Nat) : Viewport :=
  { vp with yOffset := clampOffset (vp.yOffset + n) vp.scrollMaxOffset }

/-- Modelled from the spec: gotoTop sets the offset to 0. -/
def Viewport.gotoTop (vp : Viewport) : Viewport :=
  { vp with yOffset := 0 }

/-- Modelled from the spec: gotoBottom sets the offset to
    max(0, totalLines - viewportHeight). -/
def Viewport.gotoBottom (vp : Viewport) : Viewport :=
  { vp with yOffset := vp.scrollMaxOffset }

/-- n successive LineDown(1) calls, as ensureMessageVisible performs them. -/
def iterLineDown : Nat → Viewport → Viewport
  | 0, vp => vp
  | n + 1, vp => iterLineDown n (vp.lineDown 1)

/-- Insert a conversation into a list sorted by descending creation time. -/
def insertConvDesc (c : Conversation) : List Conversation → List Conversation
  | [] => [c]
  | d :: ds => if d.createdAt ≤ c.createdAt then c :: d :: ds else d :: insertConvDesc c ds

/-- The sorted copy made by historyView and the history-selection handler:
    conversations ordered by CreatedAt descending. Go sort.Slice is an
    unstable sort; insertion sort produces one valid descending ordering. -/
def sortConvsDesc (l : List Conversation) : List Conversation :=
  l.foldr insertConvDesc []

/-- One line of the history list (main.go historyView): bracketed timestamp
    followed by the summary. Selection highlighting recolors the line and is
    modelled as the identity. -/
def historyRow (conv : Conversation) : List Char :=
  ("[").data ++ formatTimestamp conv.createdAt ++ ("] ").data ++ conv.summary ++ ("\n").data

/-- historyView (main.go): header, one row per conversation sorted by
    descending creation time, and a trailing blank line. -/
def historyViewOf (convs : List Conversation) : List Char :=
  ("Conversation History (Press ESC to exit)\n\n").data
    ++ ((sortConvsDesc convs).map historyRow).flatten
    ++ ("\n").data

/-- One transcript row of normalView (main.go): the system message shows a
    beginning-of-conversation marker when other messages exist; assistant
    rows show the formatted content; every other role renders as a user row.
    Label styles are identities on the label text. -/
def normalRow (msgsLen : Nat) (createdAt : Nat) (msg : Message) : List Char :=
  if msg.role = ("system") then
    (if 1 < msgsLen then
      ("- Beginning of conversation [").data ++ formatTimestamp createdAt ++ ("] -").data
        ++ ("\n\n").data
     else [])
  else if msg.role = ("assistant") then
    ("assistant ").data ++ formatContent msg.content ++ ("\n\n").data
  else
    ("user ").data ++ msg.content ++ ("\n\n").data

/-- normalView (main.go): the concatenated transcript rows. -/
def normalView (m : Model) : List Char :=
  (m.messages.map (normalRow m.messages.length m.conversation.createdAt)).flatten

/-- One row of editingView (main.go): the row under the cursor carries an
    instruction bar; the assistant instruction depends on whether the raw
    content contains an opening command tag. Styles are identities. -/
def editingRow (cursorIndex i : Nat) (msg : Message) : List Char :=
  let contentA := if msg.role = ("assistant") then formatContent msg.content else []
  let row :=
    if i = cursorIndex then
      if msg.role = ("system") then ("system: ").data ++ msg.content
      else if msg.role = ("user") then
        ("user ").data ++ msg.content ++ ("\n").data
          ++ ("Press Enter to edit, C to copy message").data
      else if msg.role = ("assistant") then
        ("assistant ").data ++ contentA ++ ("\n").data
          ++ (if containsSub msg.content openTag then
                ("Press X to execute commands, C to copy message").data
              else ("Press C to copy message").data)
      else []
    else
      if msg.role = ("system") then ("system: ").data ++ msg.content
      else if msg.role = ("user") then ("user ").data ++ msg.content
      else if msg.role = ("assistant") then ("assistant ").data ++ contentA
      else []
  row ++ ("\n\n").data

/-- The indexed rows of editingView. -/
def editingRows (cursorIndex : Nat) : Nat → List Message → List Char
  | _, [] => []
  | i, msg :: rest => editingRow cursorIndex i msg ++ editingRows cursorIndex (i + 1) rest

/-- editingView (main.go): a header line and the indexed transcript rows. -/
def editingView (m : Model) : List Char :=
  ("Editing Mode\n\n").data ++ editingRows m.cursorIndex 0 m.messages

/-- The numbered command rows of commandSelectView. -/
def cmdRows : Nat → List (List Char) → List Char
  | _, [] => []
  | i, c :: cs =>
    formatNat (i + 1) ++ (": ").data ++ c ++ ("\n").data ++ cmdRows (i + 1) cs

/-- commandSelectView (main.go): a confirmation prompt for a single command,
    a numbered list otherwise. Selection highlighting is the identity. -/
def commandSelectView (m : Model) : List Char :=
  if m.commands.length = 1 then
    ("Confirm command execution:\n\n").data
      ++ (match m.commands with | c :: _ => c | [] => [])
      ++ ("\n\nPress Enter to execute, ESC to cancel").data
  else
    ("Select a command to execute:\n\n").data ++ cmdRows 0 m.commands

/-- The content generated for the current mode (the switch inside
    updateViewport, main.go). -/
def renderContent (m : Model) : List Char :=
  match m.mode with
  | Mode.ModeNormal => normalView m
  | Mode.ModeEditing => editingView m
  | Mode.ModeHistory => historyViewOf m.conversations
  | Mode.ModeCommandSelect => commandSelectView m
  | Mode.ModeHelp => helpMessage.data

/-- updateViewport (main.go), factored over the generated content, the new
    viewport dimensions and whether the mode is Help: store the current
    offset, resize, set the content; Help scrolls to the top; otherwise the
    previous offset is restored when still valid and clamped to the new
    maximum when it exceeds it. -/
def updateViewportVp (content : List Char) (h w : Int) (isHelp : Bool) (vp : Viewport) : Viewport :=
  let cur := vp.yOffset
  let vp1 := { vp with height := h, width := w }
  let vp2 := vp1.setContent content
  if isHelp then vp2.gotoTop
  else
    let maxOffset := max0 ((vp2.lines.length : Int) - vp2.height)
    if 0 ≤ cur ∧ cur ≤ maxOffset then { vp2 with yOffset := cur }
    else if maxOffset < cur then { vp2 with yOffset := maxOffset }
    else vp2

/-- updateViewport (main.go) on the model: regenerate the content for the
    current mode and re-clamp the stored offset. -/
def Model.updateViewport (m : Model) : Model :=
  let vp :=
    updateViewportVp (renderContent m) (m.height - 7) (m.width - 4)
      (decide (m.mode = Mode.ModeHelp)) m.viewport
  { m with viewport := vp }

/-- ensureConversationVisible (main.go), factored over the conversation
    list: regenerate the history content, aim the target row at the middle
    of the viewport, and clamp to [0, totalLines - height + 1] (the source
    adds one line of footer allowance to the maximum). -/
def ensureConversationVisibleVp (convs : List Conversation) (index : Nat) (vp : Viewport) : Viewport :=
  let content := historyViewOf convs
  let vp1 := vp.setContent content
  let lines := splitLines content
  let targetLine : Int := (index : Int) + 2
  let totalLines : Int := (lines.length : Int)
  let maxScroll := max0 (totalLines - vp1.height + 1)
  let d0 := targetLine - Int.tdiv vp1.height 2
  let d1 := if d0 < 0 then 0 else d0
  let desired := if maxScroll < d1 then maxScroll else d1
  { vp1 with yOffset := desired }

/-- ensureConversationVisible (main.go) on the model. -/
def ensureConversationVisible (m : Model) (index : Nat) : Model :=
  { m with viewport := ensureConversationVisibleVp m.conversations index m.viewport }

/-- Does a rendered line carry a message label? (ensureMessageVisible scans
    for the rendered user/assistant labels; with identity styles this is a
    substring test for the label words.) -/
def isMsgLine (l : List Char) : Bool :=
  containsSub l ("user").data || containsSub l ("assistant").data

/-- Line index of the target message: the position of the (index+1)-th
    labelled line, or 0 when there is none (the Go loop leaves targetLine
    at its zero value). -/
def findMsgLine : List (List Char) → Nat → Nat → Nat
  | [], _, _ => 0
  | l :: ls, i, pos =>
    if isMsgLine l then
      (if i = 0 then pos else findMsgLine ls (i - 1) (pos + 1))
    else findMsgLine ls i (pos + 1)

/-- ensureMessageVisible (main.go), factored over the generated content, the
    located target line and whether the target is the last message: aim a
    quarter viewport above the target (the bottom for the last message),
    clamp to [0, totalLines - height], then go to the top and step down one
    line at a time. -/
def ensureMessageVisibleVp (content : List Char) (targetLine : Nat) (isLast : Bool) (vp : Viewport) : Viewport :=
  let vp1 := vp.setContent content
  let lines := splitLines content
  let totalLines : Int := (lines.length : Int)
  let maxScroll := max0 (totalLines - vp1.height)
  let d0 : Int := if isLast then maxScroll else (targetLine : Int) - Int.tdiv vp1.height 4
  let d1 := if d0 < 0 then 0 else d0
  let desired := if maxScroll < d1 then maxScroll else d1
  iterLineDown desired.toNat vp1.gotoTop

/-- ensureMessageVisible (main.go) on the model. -/
def Model.ensureMessageVisible (m : Model) (index : Nat) : Model :=
  let vp :=
    ensureMessageVisibleVp (editingView m)
      (findMsgLine (splitLines (editingView m)) index 0)
      (decide (index = m.messages.length - 1)) m.viewport
  { m with viewport := vp }

/-- getClipboardCommand (main.go): the platform clipboard process, or an
    error on unsupported platforms. -/
def getClipboardCommand (goos : String) : Except String (List String) :=
  if goos = ("darwin") then Except.ok [("pbcopy")]
  else if goos = ("linux") then Except.ok [("xclip"), ("-selection"), ("clipboard")]
  else if goos = ("windows") then Except.ok [("clip")]
  else Except.error ("unsupported platform for clipboard operations")

/-- Content of the most recent assistant message, scanning backward
    (the global-execute target search in handleCommandExecution); empty when
    no assistant message exists. -/
def firstAssistantContent : List Message → List Char
  | [] => []
  | msg :: rest =>
    if msg.role = ("assistant") then msg.content else firstAssistantContent rest

/-- The execute-action target (handleCommandExecution, main.go): in Editing
    mode the message under the cursor when its role is assistant, otherwise
    the most recent assistant message; empty when there is none. An
    out-of-range cursor (which would panic in Go) yields the empty target. -/
def targetOf (m : Model) : List Char :=
  if m.mode = Mode.ModeEditing then
    match m.messages.get? m.cursorIndex with
    | some msg => if msg.role = ("assistant") then msg.content else []
    | none => []
  else firstAssistantContent m.messages.reverse

/-- handleCommandExecution (main.go): extract commands from the target
    message; with no target or no match the state is returned unchanged and
    no effect is produced; otherwise enter CommandSelect with the trimmed
    command list and selection 0, again producing no effect. The source
    stores each full regexp match with its submatch; only the trimmed
    submatch is ever read, so commands holds the trimmed texts. -/
def handleCommandExecution (m : Model) : StepResult :=
  let targetMsg := targetOf m
  if targetMsg = [] then ⟨m, none, []⟩
  else
    let found := extractCommands targetMsg
    if found = [] then ⟨m, none, []⟩
    else
      ⟨{ m with mode := Mode.ModeCommandSelect, commands := found, selectedCommand := 0 },
        none, []⟩

/-- The conversion loop building claude.Message values from the full
    message list (main.go, before CreateMessage). -/
def toClaudeMessages (msgs : List Message) : List ClaudeMessage :=
  msgs.map (fun msg => { role := msg.role, content := msg.content })

/-- The Normal-mode Enter handler (main.go, Update, tea.KeyEnter): when the
    input text is non-empty, append it as a user message, sync the
    conversation, regenerate the viewport and scroll to the bottom, set
    isLoading, reset the input and issue a completion request; otherwise do
    nothing. The handler performs no isLoading check. -/
def updateNormalEnter (now : Nat) (m : Model) : StepResult :=
  if m.textInput = [] then ⟨m, none, []⟩
  else
    let userMsg : Message := { role := ("user"), content := m.textInput, timestamp := now }
    let messages := m.messages ++ [userMsg]
    let m1 := { m with messages := messages,
                       conversation := { m.conversation with messages := messages } }
    let m2 := m1.updateViewport
    let m3 := { m2 with viewport := m2.viewport.gotoBottom }
    let claudeMsgs := toClaudeMessages m3.messages
    let m4 := { m3 with isLoading := true, textInput := [] }
    ⟨m4, some (Eff.completionRequest claudeMsgs), []⟩

/-- The mode-independent enter-edit handler (main.go, Update, ctrl+j/ctrl+k
    and alt+j/alt+k): switch to Editing with the cursor on the last message
    and regenerate the viewport. -/
def enterEditing (m : Model) : Model :=
  Model.updateViewport { m with mode := Mode.ModeEditing, cursorIndex := m.messages.length - 1 }

/-- The keys handled by the Editing-mode branch of Update. -/
inductive EditKey where
  | esc
  | up
  | down
  | enter
  | runeK
  | runeJ
  | runeX
  | runeC
deriving DecidableEq

/-- The Editing-mode branch of Update (main.go): Esc returns to Normal;
    k/j move the cursor within [1, len-1] and re-center it; x on an
    assistant message runs handleCommandExecution; c copies the message
    under the cursor to the clipboard and returns to Normal; arrow keys
    scroll; Enter on a user message launches the external editor, on any
    other row it returns to Normal. Cursor accesses that would panic in Go
    on an out-of-range index are modelled as no-ops. -/
def editingStep (goos : String) (m : Model) (k : EditKey) : StepResult :=
  match k with
  | EditKey.esc => ⟨Model.updateViewport { m with mode := Mode.ModeNormal }, none, []⟩
  | EditKey.runeK =>
    if 1 < m.cursorIndex then
      let m1 := { m with cursorIndex := m.cursorIndex - 1 }
      ⟨m1.ensureMessageVisible m1.cursorIndex, none, []⟩
    else ⟨m, none, []⟩
  | EditKey.runeJ =>
    if m.cursorIndex < m.messages.length - 1 then
      let m1 := { m with cursorIndex := m.cursorIndex + 1 }
      ⟨m1.ensureMessageVisible m1.cursorIndex, none, []⟩
    else ⟨m, none, []⟩
  | EditKey.runeX =>
    match m.messages.get? m.cursorIndex with
    | some msg => if msg.role = ("assistant") then handleCommandExecution m else ⟨m, none, []⟩
    | none => ⟨m, none, []⟩
  | EditKey.runeC =>
    if m.cursorIndex < m.messages.length then
      match m.messages.get? m.cursorIndex with
      | some msg =>
        match getClipboardCommand goos with
        | Except.error e => ⟨{ m with err := some e }, none, []⟩
        | Except.ok argv =>
          ⟨{ m with mode := Mode.ModeNormal }, some (Eff.execProcess argv msg.content), []⟩
      | none => ⟨m, none, []⟩
    else ⟨m, none, []⟩
  | EditKey.up => ⟨{ m with viewport := m.viewport.lineUp 3 }, none, []⟩
  | EditKey.down => ⟨{ m with viewport := m.viewport.lineDown 3 }, none, []⟩
  | EditKey.enter =>
    match m.messages.get? m.cursorIndex with
    | some msg =>
      if msg.role = ("user") then ⟨m, some (Eff.launchEditor msg.content m.cursorIndex), []⟩
      else ⟨Model.updateViewport { m with mode := Mode.ModeNormal }, none, []⟩
    | none => ⟨Model.updateViewport { m with mode := Mode.ModeNormal }, none, []⟩

/-- The keys handled by the CommandSelect branch of Update; digit covers the
    numeric-selection inputs parsed by strconv.Atoi. -/
inductive CmdKey where
  | esc
  | up
  | down
  | enter
  | runeC
  | digit (n : Nat)
deriving DecidableEq

/-- The CommandSelect branch of Update (main.go): Esc cancels; arrows move
    the selection within bounds; Enter runs the selected command; c copies
    it to the clipboard; a number n in [1, len] runs command n. -/
def commandSelectStep (goos : String) (m : Model) (k : CmdKey) : StepResult :=
  match k with
  | CmdKey.esc => ⟨{ m with mode := Mode.ModeNormal }, none, []⟩
  | CmdKey.up =>
    if 0 < m.selectedCommand then ⟨{ m with selectedCommand := m.selectedCommand - 1 }, none, []⟩
    else ⟨m, none, []⟩
  | CmdKey.down =>
    if m.selectedCommand < m.commands.length - 1 then
      ⟨{ m with selectedCommand := m.selectedCommand + 1 }, none, []⟩
    else ⟨m, none, []⟩
  | CmdKey.enter =>
    if m.commands = [] then ⟨m, none, []⟩
    else
      match m.commands.get? m.selectedCommand with
      | some c => ⟨{ m with mode := Mode.ModeNormal }, some (Eff.execShell c), []⟩
      | none => ⟨m, none, []⟩
  | CmdKey.runeC =>
    if m.commands = [] then ⟨m, none, []⟩
    else
      match m.commands.get? m.selectedCommand with
      | some c =>
        match getClipboardCommand goos with
        | Except.error e => ⟨{ m with err := some e }, none, []⟩
        | Except.ok argv =>
          ⟨{ m with mode := Mode.ModeNormal }, some (Eff.execProcess argv c), []⟩
      | none => ⟨m, none, []⟩
  | CmdKey.digit n =>
    if 0 < n ∧ n ≤ m.commands.length then
      match m.commands.get? (n - 1) with
      | some c => ⟨{ m with mode := Mode.ModeNormal }, some (Eff.execShell c), []⟩
      | none => ⟨m, none, []⟩
    else ⟨m, none, []⟩

/-- In-place content update of the message at an index (the assignment
    m.messages[i].Content = edited); out of range leaves the list unchanged
    (Go would panic there). -/
def setContentAt : List Message → Nat → List Char → List Message
  | [], _, _ => []
  | msg :: rest, 0, c => { msg with content := c } :: rest
  | msg :: rest, n + 1, c => msg :: setContentAt rest n c

/-- Content of the first user message, if any (the summary loops in
    main.go). -/
def firstUserContent : List Message → Option (List Char)
  | [] => none
  | msg :: rest => if msg.role = ("user") then some msg.content else firstUserContent rest

/-- The summary truncation of main.go: texts longer than 50 characters are
    cut to 47 and given an ellipsis. Go measures bytes; contents are
    modelled at character granularity. -/
def summarize (c : List Char) : List Char :=
  if 50 < c.length then c.take 47 ++ ("...").data else c

/-- The editMessageMsg branch of Update (main.go): on error record it;
    otherwise overwrite the edited message content, truncate the history to
    index+1, sync the conversation, regenerate the viewport and scroll to
    the bottom, regenerate the summary from the first user message, persist,
    return to Normal and issue a completion request from the truncated
    history. -/
def updateEditMessage (m : Model) (emsg : EditMessageMsg) : StepResult :=
  match emsg.err with
  | some e => ⟨{ m with err := some e }, none, []⟩
  | none =>
    let messages := (setContentAt m.messages emsg.index emsg.edited).take (emsg.index + 1)
    let m1 := { m with messages := messages,
                       conversation := { m.conversation with messages := messages } }
    let m2 := m1.updateViewport
    let m3 := { m2 with viewport := m2.viewport.gotoBottom }
    let conv :=
      match firstUserContent m3.messages with
      | some c => { m3.conversation with summary := summarize c }
      | none => m3.conversation
    let m4 := { m3 with conversation := conv }
    let m5 := { m4 with mode := Mode.ModeNormal }
    let claudeMsgs := toClaudeMessages m5.messages
    let m6 := { m5 with isLoading := true }
    ⟨m6, some (Eff.completionRequest claudeMsgs), [conv]⟩

/-- The apiResponseMsg branch of Update (main.go): clear isLoading; on error
    record it without touching the history; otherwise append the assistant
    reply, generate the summary when it is still empty, persist, regenerate
    the viewport and scroll to the bottom. -/
def updateApiResponse (now : Nat) (m : Model) (amsg : ApiResponseMsg) : StepResult :=
  let m0 := { m with isLoading := false }
  match amsg.err with
  | some e => ⟨{ m0 with err := some e }, none, []⟩
  | none =>
    let botMsg : Message := { role := ("assistant"), content := amsg.response, timestamp := now }
    let messages := m0.messages ++ [botMsg]
    let m1 := { m0 with messages := messages,
                        conversation := { m0.conversation with messages := messages } }
    let conv :=
      if m1.conversation.summary = [] then
        match firstUserContent m1.messages with
        | some c => { m1.conversation with summary := summarize c }
        | none => m1.conversation
      else m1.conversation
    let m2 := { m1 with conversation := conv }
    let m3 := m2.updateViewport
    let m4 := { m3 with viewport := m3.viewport.gotoBottom }
    ⟨m4, none, [conv]⟩

/-- The result-formatting closure of executeCommand (main.go): given the
    shell run's combined output and error status, build the commandOutputMsg
    with the literal invocation line, a status line, and the full captured
    output; the run's error is passed through unchanged. -/
def executeCommandResult (cmdStr : List Char) (runOutput : List Char) (runErr : Option String) : CommandOutputMsg :=
  let status :=
    match runErr with
    | some e => ("Command failed: ").data ++ e.data ++ ("\n").data
    | none => ("Command executed successfully\n").data
  { output := ("Command ran: ").data ++ cmdStr ++ ("\nCommand result:\n").data ++ status ++ runOutput,
    err := runErr }

/-- The commandOutputMsg branch of Update (main.go): on error record it and
    stop; otherwise append the output as an assistant message wrapped in a
    code fence, persist, regenerate the viewport and scroll to the bottom. -/
def updateCommandOutput (now : Nat) (m : Model) (cmsg : CommandOutputMsg) : StepResult :=
  match cmsg.err with
  | some e => ⟨{ m with err := some e }, none, []⟩
  | none =>
    let botMsg : Message :=
      { role := ("assistant"),
        content := ("```" ).data ++ ("\n").data ++ cmsg.output ++ ("```").data,
        timestamp := now }
    let messages := m.messages ++ [botMsg]
    let m1 := { m with messages := messages,
                       conversation := { m.conversation with messages := messages } }
    let m2 := m1.updateViewport
    let m3 := { m2 with viewport := m2.viewport.gotoBottom }
    ⟨m3, none, [m1.conversation]⟩

/-- Decidable equality of Except values with decidable components. -/
instance {α β : Type} [DecidableEq α] [DecidableEq β] : DecidableEq (Except α β) := fun a b =>
  match a, b with
  | Except.error x, Except.error y =>
    if h : x = y then isTrue (by rw [h])
    else isFalse (by intro hc; injection hc; exact h (by assumption))
  | Except.error _, Except.ok _ => isFalse (by intro hc; exact Except.noConfusion hc)
  | Except.ok _, Except.error _ => isFalse (by intro hc; exact Except.noConfusion hc)
  | Except.ok x, Except.ok y =>
    if h : x = y then isTrue (by rw [h])
    else isFalse (by intro hc; injection hc; exact h (by assumption))

/-- Outcomes of the external effects performed by editMessageCmd: creating
    the temp file, writing the content, running the editor, reading the file
    back. -/
structure EditorEnv where
  createTemp : Except String String
  writeFile : Option String
  editorRun : Option String
  readFile : Except String (List Char)
deriving DecidableEq

/-- Observable result of editMessageCmd: the completion event it produces
    and the files it removed. -/
structure EditorTrace where
  msg : EditMessageMsg
  removed : List String
deriving DecidableEq

/-- editMessageCmd (main.go): create a temp file, write the content, run the
    editor, read the file back. The deferred os.Remove lives inside the
    editor-exit callback, so the file is removed after the editor ran
    (whether it, or the read back, succeeded or failed) but not when the
    initial write fails. -/
def editMessageCmd (content : List Char) (index : Nat) (env : EditorEnv) : EditorTrace :=
  match env.createTemp with
  | Except.error e => { msg := { index := index, edited := [], err := some e }, removed := [] }
  | Except.ok name =>
    match env.writeFile with
    | some e => { msg := { index := index, edited := [], err := some e }, removed := [] }
    | none =>
      match env.editorRun with
      | some e => { msg := { index := index, edited := [], err := some e }, removed := [name] }
      | none =>
        match env.readFile with
        | Except.error e => { msg := { index := index, edited := [], err := some e }, removed := [name] }
        | Except.ok data => { msg := { index := index, edited := data, err := none }, removed := [name] }

/-- A directory entry as ListConversations sees it: the file name and the
    outcome of reading the file. -/
structure DirEntry where
  name : List Char
  read : Except String (List Char)
deriving DecidableEq

/-- Go filepath.Ext: the suffix of the name starting at its final dot, empty
    when the name has no dot (path separators do not occur in these names). -/
def fileExt (name : List Char) : List Char :=
  let rev := name.reverse
  let pre := rev.takeWhile (fun c => !(c = '.'))
  if pre.length = rev.length then [] else '.' :: pre.reverse

/-- The collection loop of ListConversations (storage package): keep every
    .convo file whose read and parse both succeed, in directory order;
    skip the rest silently. The JSON decoder is outside this repository and
    is passed as the parse function. -/
def collectConversations (parse : List Char → Option Conversation) : List DirEntry → List Conversation
  | [] => []
  | f :: fs =>
    if fileExt f.name = (".convo").data then
      match f.read with
      | Except.error _ => collectConversations parse fs
      | Except.ok data =>
        match parse data with
        | none => collectConversations parse fs
        | some conv => conv :: collectConversations parse fs
    else collectConversations parse fs

/-- ListConversations (storage package): fail only when the directory read
    fails; otherwise return the successfully parsed .convo files. -/
def ListConversations (parse : List Char → Option Conversation) (dir : Except String (List DirEntry)) : Except String (List Conversation) :=
  match dir with
  | Except.error e => Except.error (("error reading directory: ") ++ e)
  | Except.ok files => Except.ok (collectConversations parse files)

/-- The hidden system message added to every new conversation (main.go,
    initialModel and the ctrl+n handler). -/
def sysMessage : Message := { role := ("system"), content := systemPrompt.data, timestamp := 0 }

/-- A fresh conversation: only the system message. -/
def initialConversation : Conversation :=
  { id := ("c0"), messages := [sysMessage], createdAt := 0, summary := [] }

/-- The engine state right after startup (main.go initialModel): Normal
    mode, a fresh conversation, nothing loading, zero-sized viewport. -/
def initialModel : Model :=
  { textInput := [], viewport := { yOffset := 0, height := 0, width := 0, lines := [] },
    err := none, conversation := initialConversation, mode := Mode.ModeNormal,
    messages := [sysMessage], cursorIndex := 0, conversations := [], selectedConv := 0,
    isLoading := false, height := 0, width := 0, commands := [], selectedCommand := 0 }

/-- A user message used by the concrete scenarios. -/
def exUserMsg : Message := { role := ("user"), content := ("list the files").data, timestamp := 1 }

/-- An assistant reply carrying one command, used by the concrete
    scenarios. -/
def exAsstMsg : Message :=
  { role := ("assistant"), content := ("run <command> ls -la </command>").data, timestamp := 2 }

/-- A reachable Editing-mode state with the cursor on an assistant message
    that carries one command. -/
def cm1 : Model :=
  { initialModel with
    mode := Mode.ModeEditing,
    cursorIndex := 2,
    messages := [sysMessage, exUserMsg, exAsstMsg],
    conversation := { initialConversation with messages := [sysMessage, exUserMsg, exAsstMsg] } }

/-- A state with a completion request outstanding (isLoading) in which the
    operator has typed new input text: reachable because rune keys still
    reach the text input while a request is in flight. -/
def cm2 : Model := { initialModel with isLoading := true, textInput := ("ls").data }

/-- An assistant reply without commands, for the editing scenario. -/
def exPlainAsstMsg : Message :=
  { role := ("assistant"), content := ("hello").data, timestamp := 2 }

/-- A reachable Editing-mode state with the cursor on the user message. -/
def cm3 : Model :=
  { initialModel with
    mode := Mode.ModeEditing,
    cursorIndex := 1,
    messages := [sysMessage, exUserMsg, exPlainAsstMsg],
    conversation := { initialConversation with messages := [sysMessage, exUserMsg, exPlainAsstMsg] } }

/-- A stored conversation shown in the history list. -/
def histConv (t : Nat) : Conversation :=
  { id := ("h"), messages := [], createdAt := t, summary := ("s").data }

/-- A reachable History-mode state: ten stored conversations, a terminal of
    height 15 (viewport height 8), the last row selected via End or repeated
    Down. -/
def cm4 : Model :=
  { initialModel with
    mode := Mode.ModeHistory,
    conversations := [histConv 10, histConv 9, histConv 8, histConv 7, histConv 6,
                      histConv 5, histConv 4, histConv 3, histConv 2, histConv 1],
    viewport := { yOffset := 0, height := 8, width := 80, lines := [] } }

/-- The completion event produced for a failing shell command, e.g.
    sh -c false exiting with status 1. -/
def cmsgFail : CommandOutputMsg :=
  executeCommandResult (("false").data) [] (some ("exit status 1"))

/-- The completion event produced for a successful shell command. -/
def cmsgOk : CommandOutputMsg :=
  executeCommandResult (("echo hi").data) (("hi\n").data) none

/-- An editor environment in which writing the temp file fails. -/
def c7envWriteFail : EditorEnv :=
  { createTemp := Except.ok ("tmp1"), writeFile := some ("no space left on device"),
    editorRun := none, readFile := Except.ok [] }

/-- An editor environment in which the editor exits with an error after the
    temp file was written. -/
def c7envEditorFail : EditorEnv :=
  { createTemp := Except.ok ("tmp2"), writeFile := none,
    editorRun := some ("exit status 1"), readFile := Except.ok [] }

/-- A reachable Editing-mode state with two non-system messages and the
    cursor on the user message. -/
def cm9 : Model :=
  { initialModel with
    mode := Mode.ModeEditing,
    cursorIndex := 1,
    messages := [sysMessage, exUserMsg, exPlainAsstMsg],
    conversation := { initialConversation with messages := [sysMessage, exUserMsg, exPlainAsstMsg] } }

/-- A parsed conversation used by the storage scenario. -/
def conv10 : Conversation :=
  { id := ("k1"), messages := [], createdAt := 3, summary := ("first question").data }

/-- A parse function for the storage scenario: only the text good parses. -/
def parse10 (d : List Char) : Option Conversation :=
  if d = ("good").data then some conv10 else none

/-- A directory listing with one readable well-formed .convo file, one
    unreadable .convo file, one unparsable .convo file, and one readable
    file with a different extension. -/
def files10 : List DirEntry :=
  [ { name := ("a.convo").data, read := Except.ok (("good").data) },
    { name := ("b.convo").data, read := Except.error ("permission denied") },
    { name := ("c.convo").data, read := Except.ok (("junk").data) },
    { name := ("d.txt").data, read := Except.ok (("good").data) } ]

/-- The viewport as built at startup: viewport.New(0, 0) with no content. -/
def initialViewport : Viewport := { yOffset := 0, height := 0, width := 0, lines := [] }

/-- The scroll and regeneration operations the engine performs on the
    viewport: spec scrollBy and goto operations, updateViewport-style
    content regeneration (over the generated content and the new
    dimensions), and the two ensure-visible operations. -/
inductive ScrollOp where
  | lineUp (n : Nat)
  | lineDown (n : Nat)
  | top
  | bottom
  | regenerate (content : List Char) (h w : Int) (isHelp : Bool)
  | ensureConv (convs : List Conversation) (index : Nat)
  | ensureMsg (content : List Char) (targetLine : Nat) (isLast : Bool)

/-- Apply one scroll operation to the viewport. -/
def applyOp (vp : Viewport) : ScrollOp → Viewport
  | ScrollOp.lineUp n => vp.lineUp n
  | ScrollOp.lineDown n => vp.lineDown n
  | ScrollOp.top => vp.gotoTop
  | ScrollOp.bottom => vp.gotoBottom
  | ScrollOp.regenerate c h w isHelp => updateViewportVp c h w isHelp vp
  | ScrollOp.ensureConv convs index => ensureConversationVisibleVp convs index vp
  | ScrollOp.ensureMsg c target isLast => ensureMessageVisibleVp c target isLast vp

/-- Interleave gap texts with delimiter-wrapped inner texts and a tail:
    the decomposition of a reply induced by its command matches. -/
def wrapJoin : List (List Char × List Char) → List Char → List Char
  | [], tail => tail
  | (gap, inner) :: rest, tail =>
    gap ++ openTag ++ inner ++ closeTag ++ wrapJoin rest tail

/-- Is an effect a completion request? -/
def isCompletionRequest : Option Eff → Bool
  | some (Eff.completionRequest _) => true
  | _ => false

/-- The viewport offset invariant maintained by the engine: the offset is
    non-negative and at most max(0, totalLines - viewportHeight + 1) (the
    extra line is the footer allowance of ensureConversationVisible). -/
def VpInv (vp : Viewport) : Prop :=
  0 ≤ vp.yOffset ∧ vp.yOffset ≤ max0 ((vp.lines.length : Int) - vp.height + 1)

/-- splitFirst reconstructs its input: the pieces concatenate back with the
    pattern in between. -/
theorem splitFirst_append (pat : List Char) :
    ∀ (t pre post : List Char), splitFirst pat t = some (pre, post) → pre ++ pat ++ post = t := by
  intro t
  induction t with
  | nil => intro pre post h; simp [splitFirst] at h
  | cons c cs ih =>
    intro pre post h
    rw [splitFirst] at h
    split at h
    · next hpre =>
      obtain ⟨s, hs⟩ := List.isPrefixOf_iff_prefix.mp hpre
      simp only [Option.some.injEq, Prod.mk.injEq] at h
      obtain ⟨hpre2, hpost⟩ := h
      subst hpre2
      subst hpost
      rw [← hs, List.nil_append, List.drop_left]
    · revert h
      split
      · intro h; exact absurd h (by simp)
      · next pre2 post2 heq =>
        intro h
        simp only [Option.some.injEq, Prod.mk.injEq] at h
        obtain ⟨hpre2, hpost⟩ := h
        subst hpre2
        subst hpost
        have := ih pre2 post2 heq
        simp only [List.cons_append]
        rw [this]

/-- The fueled extraction scan decomposes its input into gaps and
    delimiter-wrapped inner texts followed by a residue without matches. -/
theorem extractRawAux_decomp :
    ∀ (fuel : Nat) (t : List Char), t.length < fuel →
      ∃ pairs tail, wrapJoin pairs tail = t ∧
        List.map Prod.snd pairs = extractRawAux fuel t ∧ extractRaw tail = [] := by
  intro fuel
  induction fuel with
  | zero => intro t ht; exact absurd ht (Nat.not_lt_zero _)
  | succ fuel ih =>
    intro t ht
    rcases h1 : splitFirst openTag t with _ | ⟨pre, afterOpen⟩
    · refine ⟨[], t, rfl, ?_, ?_⟩
      · simp [extractRawAux, h1]
      · simp [extractRaw, extractRawAux, h1]
    · rcases h2 : splitFirst closeTag afterOpen with _ | ⟨inner, afterClose⟩
      · refine ⟨[], t, rfl, ?_, ?_⟩
        · simp [extractRawAux, h1, h2]
        · simp [extractRaw, extractRawAux, h1, h2]
      · have e1 := splitFirst_append openTag t pre afterOpen h1
        have e2 := splitFirst_append closeTag afterOpen inner afterClose h2
        have hlen : afterClose.length < fuel := by
          have l1 := congrArg List.length e1
          have l2 := congrArg List.length e2
          simp only [List.length_append] at l1 l2
          have hop : 0 < openTag.length := by decide
          have hcl : 0 < closeTag.length := by decide
          omega
        obtain ⟨pairs, tail, hw, hm, hres⟩ := ih afterClose hlen
        refine ⟨(pre, inner) :: pairs, tail, ?_, ?_, hres⟩
        · simp only [wrapJoin, hw, List.append_assoc]
          simp only [List.append_assoc] at e1 e2
          rw [e2, e1]
        · simp [extractRawAux, h1, h2, hm]

/-- C5: for every text, extraction returns one command per non-overlapping
    delimiter pair in left-to-right document order, each equal to the pair's
    inner text with surrounding whitespace trimmed. Formally: the text
    decomposes as an in-order interleaving of gap texts with the wrapped
    inner texts followed by a match-free residue, and the extraction result
    is exactly the trimmed inner texts of that decomposition. -/
theorem extractCommands_spec (t : List Char) :
    ∃ pairs tail,
      wrapJoin pairs tail = t ∧
      List.map Prod.snd pairs = extractRaw t ∧
      extractCommands t = List.map trimChars (List.map Prod.snd pairs) ∧
      extractRaw tail = [] := by
  obtain ⟨pairs, tail, h1, h2, h3⟩ :=
    extractRawAux_decomp (t.length + 1) t (Nat.lt_succ_self _)
  exact ⟨pairs, tail, h1, h2, by rw [h2]; rfl, h3⟩

/-- extraction of the empty text yields nothing. -/
theorem extractCommands_nil : extractCommands [] = [] := rfl

/-- C1: whenever the execute action has a target whose extraction yields at
    least one command, the engine enters CommandSelect carrying exactly the
    extracted list with initial selection 0 and dispatches nothing; when
    extraction yields no command (in particular when no assistant message
    exists) the state is unchanged and nothing is dispatched; and no
    CommandSelect input other than Enter or a digit ever dispatches a shell
    command, so even a single extracted command is never run without an
    explicit selection input. -/
theorem handleCommandExecution_spec (m : Model)
    (hcur : m.mode = Mode.ModeEditing → m.cursorIndex < m.messages.length) :
    (extractCommands (targetOf m) ≠ [] →
      (handleCommandExecution m).model.mode = Mode.ModeCommandSelect ∧
      (handleCommandExecution m).model.commands = extractCommands (targetOf m) ∧
      (handleCommandExecution m).model.selectedCommand = 0 ∧
      (handleCommandExecution m).model.messages = m.messages ∧
      (handleCommandExecution m).eff = none) ∧
    (extractCommands (targetOf m) = [] →
      (handleCommandExecution m).model = m ∧ (handleCommandExecution m).eff = none) ∧
    (∀ goos k, k ≠ CmdKey.enter → (∀ n, k ≠ CmdKey.digit n) → ∀ c,
      (commandSelectStep goos (handleCommandExecution m).model k).eff ≠ some (Eff.execShell c)) := by
  have hmain : (extractCommands (targetOf m) ≠ [] →
      (handleCommandExecution m).model.mode = Mode.ModeCommandSelect ∧
      (handleCommandExecution m).model.commands = extractCommands (targetOf m) ∧
      (handleCommandExecution m).model.selectedCommand = 0 ∧
      (handleCommandExecution m).model.messages = m.messages ∧
      (handleCommandExecution m).eff = none) ∧
    (extractCommands (targetOf m) = [] →
      (handleCommandExecution m).model = m ∧ (handleCommandExecution m).eff = none) := by
    by_cases ht : targetOf m = []
    · have hz : extractCommands (targetOf m) = [] := by rw [ht]; rfl
      constructor
      · intro hne; exact absurd hz hne
      · intro _; constructor <;> simp [handleCommandExecution, ht]
    · by_cases hx : extractCommands (targetOf m) = []
      · constructor
        · intro hne; exact absurd hx hne
        · intro _; constructor <;> simp [handleCommandExecution, ht, hx]
      · constructor
        · intro _
          refine ⟨?_, ?_, ?_, ?_, ?_⟩ <;> simp [handleCommandExecution, ht, hx]
        · intro hz; exact absurd hz hx
  refine ⟨hmain.1, hmain.2, ?_⟩
  intro goos k hke hkd c
  cases k with
  | esc => simp [commandSelectStep]
  | up => simp only [commandSelectStep]; split <;> simp
  | down => simp only [commandSelectStep]; split <;> simp
  | enter => exact absurd rfl hke
  | runeC =>
    simp only [commandSelectStep]
    split
    · simp
    · split
      · split <;> simp
      · simp
  | digit n => exact absurd rfl (hkd n)

/-- Witness for C1 at a reachable Editing-mode state whose cursor sits on
    an assistant message carrying one command. -/
theorem handleCommandExecution_spec_witness :
    extractCommands (targetOf cm1) = [("ls -la").data] ∧
    (handleCommandExecution cm1).model.mode = Mode.ModeCommandSelect ∧
    (handleCommandExecution cm1).model.commands = extractCommands (targetOf cm1) ∧
    (handleCommandExecution cm1).model.selectedCommand = 0 ∧
    (handleCommandExecution cm1).eff = none := by
  have h := (handleCommandExecution_spec cm1 (by intro _; decide)).1 (by decide)
  exact ⟨by decide, h.1, h.2.1, h.2.2.1, h.2.2.2.2⟩

/-- C2: the claim fails on the code. In the reachable state cm2 a completion
    request is outstanding (isLoading) and the operator has typed new text;
    the Normal-mode Enter handler nevertheless issues a second completion
    request, because the send path checks only that the input text is
    non-empty and never consults isLoading. -/
theorem loading_guard_missing :
    cm2.isLoading = true ∧
    cm2.mode = Mode.ModeNormal ∧
    isCompletionRequest (updateNormalEnter 3 cm2).eff = true ∧
    (updateNormalEnter 3 cm2).model.isLoading = true := by
  exact ⟨rfl, rfl, rfl, rfl⟩

/-- setContentAt preserves the list length. -/
theorem setContentAt_length :
    ∀ (msgs : List Message) (i : Nat) (c : List Char),
      (setContentAt msgs i c).length = msgs.length := by
  intro msgs
  induction msgs with
  | nil => intro i c; rfl
  | cons a rest ih =>
    intro i c
    cases i with
    | zero => rfl
    | succ n => simp [setContentAt, ih]

/-- setContentAt replaces exactly the content at the given index. -/
theorem setContentAt_get_self :
    ∀ (msgs : List Message) (i : Nat) (c : List Char) (msg : Message),
      msgs.get? i = some msg →
      (setContentAt msgs i c).get? i = some { msg with content := c } := by
  intro msgs
  induction msgs with
  | nil => intro i c msg h; simp at h
  | cons a rest ih =>
    intro i c msg h
    cases i with
    | zero =>
      simp only [List.get?] at h
      injection h with h
      subst h
      rfl
    | succ n =>
      simp only [List.get?] at h
      simp only [setContentAt, List.get?]
      exact ih n c msg h

/-- setContentAt leaves every other index unchanged. -/
theorem setContentAt_get_ne :
    ∀ (msgs : List Message) (i : Nat) (c : List Char) (j : Nat), j ≠ i →
      (setContentAt msgs i c).get? j = msgs.get? j := by
  intro msgs
  induction msgs with
  | nil => intro i c j _; rfl
  | cons a rest ih =>
    intro i c j hne
    cases i with
    | zero =>
      cases j with
      | zero => exact absurd rfl hne
      | succ jn => rfl
    | succ n =>
      cases j with
      | zero => rfl
      | succ jn =>
        simp only [setContentAt, List.get?]
        exact ih n c jn (by omega)

/-- C3: committing an edit with text e at a user-message index i in
    [1, len-1] truncates the history to exactly i+1 messages, message i's
    content becomes e, the messages before i are untouched, and only then a
    completion request carrying exactly the truncated history is issued. -/
theorem commitEdit_spec (m : Model) (i : Nat) (e : List Char)
    (h1 : 1 ≤ i) (h2 : i < m.messages.length)
    (hrole : (m.messages.get? i).map Message.role = some ("user")) :
    ((updateEditMessage m { index := i, edited := e, err := none }).model.messages.length = i + 1) ∧
    (((updateEditMessage m { index := i, edited := e, err := none }).model.messages.get? i).map Message.content = some e) ∧
    (∀ j, j < i →
      (updateEditMessage m { index := i, edited := e, err := none }).model.messages.get? j
        = m.messages.get? j) ∧
    ((updateEditMessage m { index := i, edited := e, err := none }).eff
      = some (Eff.completionRequest
          (toClaudeMessages (updateEditMessage m { index := i, edited := e, err := none }).model.messages))) ∧
    ((updateEditMessage m { index := i, edited := e, err := none }).model.isLoading = true) ∧
    ((updateEditMessage m { index := i, edited := e, err := none }).model.mode = Mode.ModeNormal) := by
  have hmsgs : (updateEditMessage m { index := i, edited := e, err := none }).model.messages
      = (setContentAt m.messages i e).take (i + 1) := rfl
  have hget : ∃ msg, m.messages.get? i = some msg := by
    cases hg : m.messages.get? i with
    | none => rw [List.get?_eq_none] at hg; omega
    | some msg => exact ⟨msg, rfl⟩
  obtain ⟨msg, hmsg⟩ := hget
  refine ⟨?_, ?_, ?_, rfl, rfl, rfl⟩
  · rw [hmsgs, List.length_take, setContentAt_length]
    omega
  · rw [hmsgs, List.get?_take (Nat.lt_succ_self i), setContentAt_get_self m.messages i e msg hmsg]
    rfl
  · intro j hj
    rw [hmsgs, List.get?_take (by omega : j < i + 1), setContentAt_get_ne m.messages i e j (by omega)]

/-- Witness for C3: editing the user message of the conversation
    [system, user, assistant] to the text bye leaves exactly
    [system, user bye] and fires a completion request. -/
theorem commitEdit_spec_witness :
    (updateEditMessage cm3 { index := 1, edited := ("bye").data, err := none }).model.messages.length = 2 ∧
    ((updateEditMessage cm3 { index := 1, edited := ("bye").data, err := none }).model.messages.get? 1).map Message.content
      = some (("bye").data) := by
  have h := commitEdit_spec cm3 1 (("bye").data) (by decide) (by decide) (by decide)
  exact ⟨h.1, h.2.1⟩

/-- C6: the claim fails on the code. executeCommand does build a transcript
    containing the invocation line and a failure status, but the
    commandOutputMsg handler returns early whenever the run error is
    non-nil, so a failed command (here sh -c false, exit status 1) appends
    nothing and persists nothing; only successful runs are appended as a
    fenced assistant message with the full output. -/
theorem commandOutput_failure_bug :
    cmsgFail.err = some ("exit status 1") ∧
    containsSub cmsgFail.output (("Command failed: exit status 1").data) = true ∧
    containsSub cmsgFail.output (("Command ran: false").data) = true ∧
    (updateCommandOutput 7 cm3 cmsgFail).model.messages = cm3.messages ∧
    (updateCommandOutput 7 cm3 cmsgFail).saved = [] ∧
    (updateCommandOutput 7 cm3 cmsgFail).model.err = some ("exit status 1") ∧
    (updateCommandOutput 7 cm3 cmsgOk).model.messages = cm3.messages ++ [{ role := ("assistant"), content := ("```" ).data ++ ("\n").data ++ cmsgOk.output ++ ("```").data, timestamp := 7 }] ∧
    (updateCommandOutput 7 cm3 cmsgOk).saved = [(updateCommandOutput 7 cm3 cmsgOk).model.conversation] := by
  refine ⟨rfl, by decide, by decide, rfl, rfl, rfl, rfl, rfl⟩

/-- C7 (amended): whenever the temp file was created and the content write
    succeeded, the file is removed on every way the invocation can end:
    editor success, editor failure, and read-back failure. -/
theorem editMessageCmd_cleanup (content : List Char) (index : Nat) (env : EditorEnv)
    (name : String) (hc : env.createTemp = Except.ok name) (hw : env.writeFile = none) :
    (editMessageCmd content index env).removed = [name] := by
  unfold editMessageCmd
  rw [hc, hw]
  rcases env.editorRun with _ | e
  · rcases env.readFile with e2 | data <;> rfl
  · rfl

/-- Witness for C7 (amended): the editor fails after a successful write; the
    temp file is removed. -/
theorem editMessageCmd_cleanup_witness :
    (editMessageCmd (("hi there").data) 1 c7envEditorFail).removed = [("tmp2")] :=
  editMessageCmd_cleanup (("hi there").data) 1 c7envEditorFail ("tmp2") rfl rfl

/-- Counterexample to C7 as stated: when writing the temp file fails, the
    function returns the error without removing the file it created, so the
    temporary file is not removed on every exit path. -/
theorem editMessageCmd_write_failure_leak :
    c7envWriteFail.createTemp = Except.ok ("tmp1") ∧
    c7envWriteFail.writeFile = some ("no space left on device") ∧
    (editMessageCmd (("hi there").data) 1 c7envWriteFail).removed = [] ∧
    (editMessageCmd (("hi there").data) 1 c7envWriteFail).msg.err = some ("no space left on device") := by
  exact ⟨rfl, rfl, rfl, rfl⟩

/-- C8: on a successful completion event the assistant reply is appended
    and the updated conversation snapshot is persisted; on a failed one the
    error is recorded in the engine state and the message history is left
    untouched, with nothing persisted; isLoading is cleared either way. -/
theorem apiResponse_spec (now : Nat) (m : Model) (resp : List Char) (e : String) :
    ((updateApiResponse now m { response := resp, err := none }).model.messages
        = m.messages ++ [{ role := ("assistant"), content := resp, timestamp := now }] ∧
     (updateApiResponse now m { response := resp, err := none }).model.conversation.messages
        = m.messages ++ [{ role := ("assistant"), content := resp, timestamp := now }] ∧
     (updateApiResponse now m { response := resp, err := none }).saved
        = [(updateApiResponse now m { response := resp, err := none }).model.conversation] ∧
     (updateApiResponse now m { response := resp, err := none }).model.isLoading = false) ∧
    ((updateApiResponse now m { response := resp, err := some e }).model.messages = m.messages ∧
     (updateApiResponse now m { response := resp, err := some e }).model.err = some e ∧
     (updateApiResponse now m { response := resp, err := some e }).saved = [] ∧
     (updateApiResponse now m { response := resp, err := some e }).eff = none ∧
     (updateApiResponse now m { response := resp, err := some e }).model.isLoading = false) := by
  constructor
  · refine ⟨rfl, ?_, rfl, rfl⟩
    simp only [updateApiResponse]
    split
    · split <;> rfl
    · rfl
  · exact ⟨rfl, rfl, rfl, rfl, rfl⟩

/-- Entering CommandSelect changes neither the message list nor the cursor. -/
theorem handleCommandExecution_preserves (m : Model) :
    (handleCommandExecution m).model.messages = m.messages ∧
    (handleCommandExecution m).model.cursorIndex = m.cursorIndex := by
  by_cases ht : targetOf m = []
  · constructor <;> simp [handleCommandExecution, ht]
  · by_cases hx : extractCommands (targetOf m) = []
    · constructor <;> simp [handleCommandExecution, ht, hx]
    · constructor <;> simp [handleCommandExecution, ht, hx]

/-- C9 (amended): when at least one non-system message exists, entering
    Editing places the cursor on the last message, inside [1, len-1], and
    every Editing-mode key (which leaves the message list unchanged) keeps
    the cursor inside [1, len-1]; with only the system message present,
    entering Editing instead selects index 0. -/
theorem editing_cursor_invariant (m : Model) (k : EditKey) (goos : String)
    (hlen : 2 ≤ m.messages.length) :
    ((enterEditing m).messages = m.messages ∧
     1 ≤ (enterEditing m).cursorIndex ∧
     (enterEditing m).cursorIndex ≤ (enterEditing m).messages.length - 1) ∧
    (1 ≤ m.cursorIndex → m.cursorIndex ≤ m.messages.length - 1 →
      ((editingStep goos m k).model.messages = m.messages ∧
       1 ≤ (editingStep goos m k).model.cursorIndex ∧
       (editingStep goos m k).model.cursorIndex
         ≤ (editingStep goos m k).model.messages.length - 1)) := by
  constructor
  · refine ⟨rfl, ?_, ?_⟩
    · show 1 ≤ m.messages.length - 1
      omega
    · show m.messages.length - 1 ≤ m.messages.length - 1
      exact Nat.le_refl _
  · intro hc1 hc2
    cases k with
    | esc => exact ⟨by trivial, hc1, hc2⟩
    | up => exact ⟨by trivial, hc1, hc2⟩
    | down => exact ⟨by trivial, hc1, hc2⟩
    | runeK =>
      simp only [editingStep]
      split
      · next h =>
        refine ⟨rfl, ?_, ?_⟩
        · show 1 ≤ m.cursorIndex - 1
          omega
        · show m.cursorIndex - 1 ≤ m.messages.length - 1
          omega
      · exact ⟨by trivial, hc1, hc2⟩
    | runeJ =>
      simp only [editingStep]
      split
      · next h =>
        refine ⟨rfl, ?_, ?_⟩
        · show 1 ≤ m.cursorIndex + 1
          omega
        · show m.cursorIndex + 1 ≤ m.messages.length - 1
          omega
      · exact ⟨by trivial, hc1, hc2⟩
    | runeX =>
      rcases hg : m.messages.get? m.cursorIndex with _ | msg
      · simp only [editingStep, hg]
        exact ⟨by trivial, hc1, hc2⟩
      · simp only [editingStep, hg]
        split
        · obtain ⟨hm, hc⟩ := handleCommandExecution_preserves m
          refine ⟨hm, ?_, ?_⟩
          · rw [hc]; exact hc1
          · rw [hc, hm]; exact hc2
        · exact ⟨by trivial, hc1, hc2⟩
    | runeC =>
      simp only [editingStep]
      split
      · rcases hg : m.messages.get? m.cursorIndex with _ | msg
        · simp only [hg]
          exact ⟨by trivial, hc1, hc2⟩
        · simp only [hg]
          rcases hclip : getClipboardCommand goos with eclip | argv
          · simp only [hclip]
            exact ⟨by trivial, hc1, hc2⟩
          · simp only [hclip]
            exact ⟨by trivial, hc1, hc2⟩
      · exact ⟨by trivial, hc1, hc2⟩
    | enter =>
      rcases hg : m.messages.get? m.cursorIndex with _ | msg
      · simp only [editingStep, hg]
        exact ⟨by trivial, hc1, hc2⟩
      · simp only [editingStep, hg]
        split
        · exact ⟨by trivial, hc1, hc2⟩
        · exact ⟨by trivial, hc1, hc2⟩

/-- Witness for C9 (amended) at the three-message state cm9. -/
theorem editing_cursor_invariant_witness :
    (enterEditing cm9).messages = cm9.messages ∧
    1 ≤ (enterEditing cm9).cursorIndex ∧
    (enterEditing cm9).cursorIndex ≤ (enterEditing cm9).messages.length - 1 :=
  (editing_cursor_invariant cm9 EditKey.runeJ ("linux") (by decide)).1

/-- Counterexample to C9 as stated: entering Editing from a fresh
    conversation (system message only) selects index 0, the system message,
    outside the claimed interval [1, len-1]. -/
theorem enterEditing_selects_system :
    initialModel.messages.length = 1 ∧
    (enterEditing initialModel).mode = Mode.ModeEditing ∧
    (enterEditing initialModel).cursorIndex = 0 ∧
    ¬ (1 ≤ (enterEditing initialModel).cursorIndex) := by
  refine ⟨rfl, rfl, rfl, ?_⟩
  intro h
  have : (enterEditing initialModel).cursorIndex = 0 := rfl
  omega

/-- max0 is non-negative. -/
theorem max0_nonneg (x : Int) : 0 ≤ max0 x := by
  unfold max0
  split <;> omega

/-- max0 is monotone. -/
theorem max0_mono {x y : Int} (h : x ≤ y) : max0 x ≤ max0 y := by
  unfold max0
  split <;> split <;> omega

/-- max0 bounds its argument from above. -/
theorem le_max0 (x : Int) : x ≤ max0 x := by
  unfold max0
  split <;> omega

/-- The clamp is non-negative when the bound is. -/
theorem clampOffset_nonneg (o maxOff : Int) (h : 0 ≤ maxOff) : 0 ≤ clampOffset o maxOff := by
  unfold clampOffset
  split
  · omega
  · split <;> omega

/-- The clamp stays below the bound when the bound is non-negative. -/
theorem clampOffset_le (o maxOff : Int) (h : 0 ≤ maxOff) : clampOffset o maxOff ≤ maxOff := by
  unfold clampOffset
  split
  · omega
  · split <;> omega

/-- Iterated single-line scrolling keeps the viewport buffer and height and
    keeps the offset inside [0, scrollMaxOffset]. -/
theorem iterLineDown_spec :
    ∀ (n : Nat) (vp : Viewport),
      0 ≤ vp.yOffset → vp.yOffset ≤ vp.scrollMaxOffset →
      (iterLineDown n vp).lines = vp.lines ∧ (iterLineDown n vp).height = vp.height ∧
      0 ≤ (iterLineDown n vp).yOffset ∧
      (iterLineDown n vp).yOffset ≤ (iterLineDown n vp).scrollMaxOffset := by
  intro n
  induction n with
  | zero => intro vp h1 h2; exact ⟨rfl, rfl, h1, h2⟩
  | succ n ih =>
    intro vp h1 h2
    have h3 : 0 ≤ (vp.lineDown 1).yOffset :=
      clampOffset_nonneg _ _ (max0_nonneg _)
    have h4 : (vp.lineDown 1).yOffset ≤ (vp.lineDown 1).scrollMaxOffset :=
      clampOffset_le _ _ (max0_nonneg _)
    exact ih (vp.lineDown 1) h3 h4

/-- Every scroll or regeneration operation preserves the offset
    invariant. -/
theorem applyOp_inv (vp : Viewport) (op : ScrollOp) (h : VpInv vp) : VpInv (applyOp vp op) := by
  obtain ⟨h0, h1⟩ := h
  cases op with
  | lineUp n =>
    dsimp only [applyOp, Viewport.lineUp, Viewport.scrollMaxOffset, VpInv, clampOffset, max0]
    repeat' split
    all_goals omega
  | lineDown n =>
    dsimp only [applyOp, Viewport.lineDown, Viewport.scrollMaxOffset, VpInv, clampOffset, max0]
    repeat' split
    all_goals omega
  | top =>
    dsimp only [applyOp, Viewport.gotoTop, VpInv, max0]
    repeat' split
    all_goals omega
  | bottom =>
    dsimp only [applyOp, Viewport.gotoBottom, Viewport.scrollMaxOffset, VpInv, max0]
    repeat' split
    all_goals omega
  | regenerate c hh ww isHelp =>
    dsimp only [applyOp, updateViewportVp, Viewport.setContent, Viewport.gotoTop]
    have hmono : max0 (((splitLines c).length : Int) - hh)
        ≤ max0 (((splitLines c).length : Int) - hh + 1) := max0_mono (by omega)
    split
    · exact ⟨le_refl 0, max0_nonneg _⟩
    · split
      · next hcond => exact ⟨hcond.1, le_trans hcond.2 hmono⟩
      · split
        · exact ⟨max0_nonneg _, hmono⟩
        · next h1 h2 => exact ⟨h0, le_trans (le_of_not_lt h2) hmono⟩
  | ensureConv convs index =>
    dsimp only [applyOp, ensureConversationVisibleVp, Viewport.setContent, VpInv, max0]
    repeat' split
    all_goals omega
  | ensureMsg c target isLast =>
    show VpInv (ensureMessageVisibleVp c target isLast vp)
    unfold ensureMessageVisibleVp
    simp only
    have hgt : 0 ≤ (((Viewport.setContent vp c)).gotoTop).yOffset := le_refl 0
    have hgt2 : (((Viewport.setContent vp c)).gotoTop).yOffset
        ≤ (((Viewport.setContent vp c)).gotoTop).scrollMaxOffset := max0_nonneg _
    obtain ⟨hl, hh, ha, hb⟩ := iterLineDown_spec _ (((Viewport.setContent vp c)).gotoTop) hgt hgt2
    refine ⟨ha, ?_⟩
    refine le_trans hb ?_
    rw [Viewport.scrollMaxOffset, hl, hh]
    exact max0_mono (by omega)

/-- The offset invariant is preserved along any operation sequence. -/
theorem foldl_applyOp_inv :
    ∀ (ops : List ScrollOp) (vp : Viewport), VpInv vp → VpInv (List.foldl applyOp vp ops) := by
  intro ops
  induction ops with
  | nil => intro vp h; exact h
  | cons op rest ih => intro vp h; exact ih _ (applyOp_inv vp op h)

/-- C4 (amended): after any sequence of scroll, ensure-visible and
    content-regeneration operations from the startup viewport, the offset
    lies in [0, max(0, totalLines - viewportHeight + 1)]; the widened upper
    bound (one more than claimed) is what ensureConversationVisible clamps
    against, while the other operations respect the claimed bound. -/
theorem viewport_offset_bounded (ops : List ScrollOp) :
    0 ≤ (List.foldl applyOp initialViewport ops).yOffset ∧
    (List.foldl applyOp initialViewport ops).yOffset
      ≤ max0 (((List.foldl applyOp initialViewport ops).lines.length : Int)
              - (List.foldl applyOp initialViewport ops).height + 1) :=
  foldl_applyOp_inv ops initialViewport ⟨by decide, by decide⟩

/-- Counterexample to C4 as stated: in a reachable history view with ten
    stored conversations and viewport height 8, ensuring visibility of the
    last row sets the offset to 7 while max(0, totalLines - viewportHeight)
    is 6, so the offset leaves the claimed interval. -/
theorem ensureConversationVisible_exceeds_bound :
    (ensureConversationVisible cm4 9).viewport.yOffset = 7 ∧
    max0 (((ensureConversationVisible cm4 9).viewport.lines.length : Int)
          - (ensureConversationVisible cm4 9).viewport.height) = 6 ∧
    ¬ ((ensureConversationVisible cm4 9).viewport.yOffset
        ≤ max0 (((ensureConversationVisible cm4 9).viewport.lines.length : Int)
                - (ensureConversationVisible cm4 9).viewport.height)) := by
  decide

/-- Unfolding equation: a .convo entry whose read succeeds contributes
    according to its parse result. -/
theorem collectConversations_cons_convo (parse : List Char → Option Conversation)
    (g : DirEntry) (fs : List DirEntry) (data : List Char)
    (hext : fileExt g.name = (".convo").data) (hr : g.read = Except.ok data) :
    collectConversations parse (g :: fs) =
      (match parse data with
       | none => collectConversations parse fs
       | some conv => conv :: collectConversations parse fs) := by
  simp only [collectConversations]
  rw [if_pos hext, hr]

/-- Unfolding equation: a .convo entry whose read fails is skipped. -/
theorem collectConversations_cons_err (parse : List Char → Option Conversation)
    (g : DirEntry) (fs : List DirEntry) (e : String)
    (hext : fileExt g.name = (".convo").data) (hr : g.read = Except.error e) :
    collectConversations parse (g :: fs) = collectConversations parse fs := by
  simp only [collectConversations]
  rw [if_pos hext, hr]

/-- Unfolding equation: an entry without the .convo extension is skipped. -/
theorem collectConversations_cons_skip (parse : List Char → Option Conversation)
    (g : DirEntry) (fs : List DirEntry)
    (hext : ¬ fileExt g.name = (".convo").data) :
    collectConversations parse (g :: fs) = collectConversations parse fs := by
  simp only [collectConversations]
  rw [if_neg hext]

/-- Every well-formed, readable, parsable .convo entry contributes its
    conversation to the collection. -/
theorem collectConversations_mem (parse : List Char → Option Conversation) :
    ∀ (files : List DirEntry) (f : DirEntry), f ∈ files →
      fileExt f.name = (".convo").data →
      ∀ d, f.read = Except.ok d → ∀ conv, parse d = some conv →
        conv ∈ collectConversations parse files := by
  intro files
  induction files with
  | nil => intro f hf; simp at hf
  | cons g fs ih =>
    intro f hf hext d hread conv hparse
    rcases List.mem_cons.mp hf with heq | hf2
    · subst heq
      rw [collectConversations_cons_convo parse f fs d hext hread, hparse]
      exact List.mem_cons_self _ _
    · have hmem := ih f hf2 hext d hread conv hparse
      by_cases hgext : fileExt g.name = (".convo").data
      · rcases hr : g.read with e2 | data
        · rw [collectConversations_cons_err parse g fs e2 hgext hr]
          exact hmem
        · rw [collectConversations_cons_convo parse g fs data hgext hr]
          rcases hp : parse data with _ | c2
          · exact hmem
          · exact List.mem_cons_of_mem _ hmem
      · rw [collectConversations_cons_skip parse g fs hgext]
        exact hmem

/-- Everything in the collection comes from a .convo entry that was read and
    parsed successfully. -/
theorem collectConversations_sound (parse : List Char → Option Conversation) :
    ∀ (files : List DirEntry) (conv : Conversation),
      conv ∈ collectConversations parse files →
      ∃ f, f ∈ files ∧ fileExt f.name = (".convo").data ∧
        ∃ d, f.read = Except.ok d ∧ parse d = some conv := by
  intro files
  induction files with
  | nil => intro conv h; simp [collectConversations] at h
  | cons g fs ih =>
    intro conv h
    by_cases hgext : fileExt g.name = (".convo").data
    · rcases hr : g.read with e2 | data
      · rw [collectConversations_cons_err parse g fs e2 hgext hr] at h
        obtain ⟨f, hf, h1, h2⟩ := ih conv h
        exact ⟨f, List.mem_cons_of_mem _ hf, h1, h2⟩
      · rw [collectConversations_cons_convo parse g fs data hgext hr] at h
        rcases hp : parse data with _ | c2
        · rw [hp] at h
          obtain ⟨f, hf, h1, h2⟩ := ih conv h
          exact ⟨f, List.mem_cons_of_mem _ hf, h1, h2⟩
        · rw [hp] at h
          rcases List.mem_cons.mp h with heq | hmem
          · subst heq
            exact ⟨g, List.mem_cons_self _ _, hgext, data, hr, hp⟩
          · obtain ⟨f, hf, h1, h2⟩ := ih conv hmem
            exact ⟨f, List.mem_cons_of_mem _ hf, h1, h2⟩
    · rw [collectConversations_cons_skip parse g fs hgext] at h
      obtain ⟨f, hf, h1, h2⟩ := ih conv h
      exact ⟨f, List.mem_cons_of_mem _ hf, h1, h2⟩

/-- C10: listing conversations fails exactly when the directory itself
    cannot be read; otherwise the result contains precisely the .convo
    files that could be read and parsed, and every unreadable or unparsable
    file is skipped silently rather than failing the listing. -/
theorem listConversations_spec (parse : List Char → Option Conversation)
    (files : List DirEntry) (e : String) :
    (ListConversations parse (Except.error e)
      = Except.error (("error reading directory: ") ++ e)) ∧
    (ListConversations parse (Except.ok files)
      = Except.ok (collectConversations parse files)) ∧
    (∀ f, f ∈ files → fileExt f.name = (".convo").data →
      ∀ d, f.read = Except.ok d → ∀ conv, parse d = some conv →
        conv ∈ collectConversations parse files) ∧
    (∀ conv, conv ∈ collectConversations parse files →
      ∃ f, f ∈ files ∧ fileExt f.name = (".convo").data ∧
        ∃ d, f.read = Except.ok d ∧ parse d = some conv) := by
  exact ⟨rfl, rfl, collectConversations_mem parse files, collectConversations_sound parse files⟩

/-- Witness for C10: in the concrete directory, the parsable .convo file's
    conversation is listed. -/
theorem listConversations_spec_witness :
    conv10 ∈ collectConversations parse10 files10 := by
  have h := (listConversations_spec parse10 files10 ("x")).2.2.1
  exact h { name := ("a.convo").data, read := Except.ok (("good").data) }
    (by simp [files10]) (by decide) (("good").data) rfl conv10 (by decide)
